import Mathlib

/-!
Verification of the order-fulfillment and sales-forecasting pipeline
(`api_client.py` and `sale_prediction.py`) by shallow embedding.

Python dictionaries are modelled as association lists preserving insertion
order (Python dicts iterate in insertion order); `dict.setdefault` followed
by assignment is modelled by `dictModify`.  Integer arithmetic is exact in
both languages, so quantities are `Int`.  Fallible code (uncaught Python
exceptions) is modelled with `Option`/`Except`.
-/

namespace RestApi

/-! ## Calendar value type (`sale_prediction.py`, class `YearMonth`) -/

/-- `YearMonth` from `sale_prediction.py`: the pair of fields `_year`,
`_month` extracted from a `datetime`.  `datetime` years lie in 1..9999 and
months in 1..12; the fields are kept as unconstrained `Int` and claims add
validity hypotheses where they matter. -/
structure YearMonth where
  year : Int
  month : Int
deriving DecidableEq, Repr

/-- `_year_month = int(str(year) + str(month).zfill(2))`, i.e. `year * 100
+ month` for the year/month values a `datetime` can produce. -/
def YearMonth.year_month (a : YearMonth) : Int :=
  a.year * 100 + a.month

/-- `YearMonth.__lt__`: comparison of the packed `_year_month` integers. -/
def YearMonth.lt (a b : YearMonth) : Bool :=
  a.year_month < b.year_month

/-- `YearMonth.months_diff` from `sale_prediction.py`, branch for unequal
years kept verbatim. -/
def YearMonth.months_diff (a b : YearMonth) : Int :=
  if a.year ≠ b.year then (a.year - b.year - 1) * 12 + (12 - b.month) + a.month
  else a.month - b.month

/-- `YearMonth.add_months` from `sale_prediction.py`.  Python `divmod` is
floor division, which for the positive divisor 12 agrees with `Int`'s `/`
and `%` (Euclidean division).  The final
`datetime(year + years_shift, new_month, 1)` raises for a year outside
1..9999, modelled by returning `none`. -/
def YearMonth.add_months (a : YearMonth) (n_month : Int) : Option YearMonth :=
  let years := n_month / 12
  let months := n_month % 12
  let years_shift := (a.month + months) / 12 + years
  let new_month := (a.month + months) % 12
  let y := a.year + (if new_month = 0 then years_shift - 1 else years_shift)
  let m := if new_month = 0 then (12 : Int) else new_month
  if 1 ≤ y ∧ y ≤ 9999 then some ⟨y, m⟩ else none

/-- Closed form of `months_diff`, shared by several claims. -/
theorem YearMonth.months_diff_eq (a b : YearMonth) :
    a.months_diff b = (a.year * 12 + a.month) - (b.year * 12 + b.month) := by
  unfold YearMonth.months_diff
  by_cases h : a.year = b.year
  · simp [h]
  · simp [h]
    ring

/-- **C7**: for every pair of `YearMonth` values `a` and `b` (years differing
or equal, in either direction), `a.months_diff b` equals
`(a.year*12 + a.month) - (b.year*12 + b.month)`. -/
theorem C7_months_diff_closed_form (a b : YearMonth) :
    a.months_diff b = (a.year * 12 + a.month) - (b.year * 12 + b.month) :=
  YearMonth.months_diff_eq a b

/-- A `YearMonth` that an actual `datetime` can produce. -/
def YearMonth.valid (a : YearMonth) : Prop :=
  1 ≤ a.year ∧ a.year ≤ 9999 ∧ 1 ≤ a.month ∧ a.month ≤ 12

instance : DecidablePred YearMonth.valid := by
  intro a
  unfold YearMonth.valid
  infer_instance

/-- Round trip used by C8, proved for valid operands. -/
theorem YearMonth.add_months_months_diff (a b : YearMonth)
    (ha : a.valid) (hbm : 1 ≤ b.month ∧ b.month ≤ 12) :
    b.add_months (a.months_diff b) = some a := by
  obtain ⟨ya, ma⟩ := a
  obtain ⟨yb, mb⟩ := b
  obtain ⟨hay1, hay2, ham1, ham2⟩ := ha
  obtain ⟨hbm1, hbm2⟩ := hbm
  simp only [YearMonth.valid] at hay1 hay2 ham1 ham2
  rw [YearMonth.months_diff_eq]
  unfold YearMonth.add_months
  dsimp only
  split_ifs with hz hcond hcond <;>
    simp only [Option.some.injEq, YearMonth.mk.injEq] at * <;>
    omega

/-- **C8**: `months_diff` is antisymmetric (`a.months_diff b =
-(b.months_diff a)`), the round trip `b.add_months (a.months_diff b) = a`
holds whenever the operands are representable calendar values (year
rollover carried correctly for positive and negative distances), and
concretely `YearMonth(2023,1).months_diff(YearMonth(2022,11)) = 2` and
`YearMonth(2022,11).add_months(2) = YearMonth(2023,1)`. -/
theorem C8_months_diff_add_months_round_trip :
    (∀ a b : YearMonth, a.months_diff b = -(b.months_diff a)) ∧
    (∀ a b : YearMonth, a.valid → 1 ≤ b.month ∧ b.month ≤ 12 →
      b.add_months (a.months_diff b) = some a) ∧
    (YearMonth.mk 2023 1).months_diff (YearMonth.mk 2022 11) = 2 ∧
    (YearMonth.mk 2022 11).add_months 2 = some (YearMonth.mk 2023 1) := by
  refine ⟨?_, ?_, ?_, ?_⟩
  · intro a b
    rw [YearMonth.months_diff_eq, YearMonth.months_diff_eq]
    ring
  · intro a b ha hb
    exact YearMonth.add_months_months_diff a b ha hb
  · decide
  · decide

/-- Witness for C8 at concrete inputs. -/
theorem C8_months_diff_add_months_round_trip_witness :
    (YearMonth.mk 2024 5).months_diff (YearMonth.mk 2022 11) =
      -((YearMonth.mk 2022 11).months_diff (YearMonth.mk 2024 5)) ∧
    (YearMonth.mk 2022 11).add_months
        ((YearMonth.mk 2024 5).months_diff (YearMonth.mk 2022 11)) =
      some (YearMonth.mk 2024 5) :=
  ⟨C8_months_diff_add_months_round_trip.1 (YearMonth.mk 2024 5) (YearMonth.mk 2022 11),
   C8_months_diff_add_months_round_trip.2.1 (YearMonth.mk 2024 5) (YearMonth.mk 2022 11)
     (by decide) (by decide)⟩

/-! ## Association-list model of Python dicts

Python dicts iterate in insertion order; assigning to an existing key
keeps its position, assigning to a fresh key appends it at the end. -/

/-- First-match lookup in an association list (Python `d[k]` /
`d.get(k)`). -/
def dlookup {κ ν : Type} [DecidableEq κ] : List (κ × ν) → κ → Option ν
  | [], _ => none
  | (k', v) :: t, k => if k' = k then some v else dlookup t k

/-- Python `d[k] = f(d.setdefault(k, dflt))`: update the value at `k` in
place, appending `(k, f dflt)` when `k` is absent. -/
def dictModify {κ ν : Type} [DecidableEq κ] :
    List (κ × ν) → κ → ν → (ν → ν) → List (κ × ν)
  | [], k, dflt, f => [(k, f dflt)]
  | (k', v) :: t, k, dflt, f =>
      if k' = k then (k, f v) :: t else (k', v) :: dictModify t k dflt f

/-- Python `d[k] = v`: overwrite in place or append. -/
def dictInsert {κ ν : Type} [DecidableEq κ] (d : List (κ × ν)) (k : κ) (v : ν) :
    List (κ × ν) :=
  dictModify d k v (fun _ => v)

theorem dlookup_dictModify_self {κ ν : Type} [DecidableEq κ]
    (d : List (κ × ν)) (k : κ) (dflt : ν) (f : ν → ν) :
    dlookup (dictModify d k dflt f) k = some (f ((dlookup d k).getD dflt)) := by
  induction d with
  | nil => simp [dictModify, dlookup]
  | cons p t ih =>
    obtain ⟨k', v⟩ := p
    by_cases h : k' = k <;> simp [dictModify, dlookup, h, ih]

theorem dlookup_dictModify_other {κ ν : Type} [DecidableEq κ]
    (d : List (κ × ν)) (k k' : κ) (dflt : ν) (f : ν → ν) (hne : k' ≠ k) :
    dlookup (dictModify d k dflt f) k' = dlookup d k' := by
  induction d with
  | nil => simp [dictModify, dlookup, Ne.symm hne]
  | cons p t ih =>
    obtain ⟨k0, v⟩ := p
    by_cases h : k0 = k
    · subst h
      simp [dictModify, dlookup, Ne.symm hne]
    · simp only [dictModify, if_neg h, dlookup]
      by_cases h' : k0 = k' <;> simp [h', ih]

theorem keys_dictModify {κ ν : Type} [DecidableEq κ]
    (d : List (κ × ν)) (k : κ) (dflt : ν) (f : ν → ν) :
    (dictModify d k dflt f).map Prod.fst =
      if (dlookup d k).isSome then d.map Prod.fst else d.map Prod.fst ++ [k] := by
  induction d with
  | nil => simp [dictModify, dlookup]
  | cons p t ih =>
    obtain ⟨k0, v⟩ := p
    by_cases h : k0 = k <;> simp [dictModify, dlookup, h, ih] <;> split <;> simp

theorem mem_dictModify {κ ν : Type} [DecidableEq κ]
    {d : List (κ × ν)} {k : κ} {dflt : ν} {f : ν → ν} {p : κ × ν}
    (hp : p ∈ dictModify d k dflt f) : p.1 = k ∨ p ∈ d := by
  induction d with
  | nil =>
    simp [dictModify] at hp
    left
    rw [hp]
  | cons q t ih =>
    obtain ⟨k0, v⟩ := q
    by_cases h : k0 = k
    · simp [dictModify, h] at hp
      rcases hp with hp | hp
      · left; rw [hp]
      · right; simp [hp]
    · simp [dictModify, h] at hp
      rcases hp with hp | hp
      · right; simp [hp]
      · rcases ih hp with h1 | h1
        · left; exact h1
        · right; simp [h1]

/-! ## Catalog and order data model (`api_client.py`) -/

/-- `ProductOption` (`api_client.py`): the fields the pipeline reads.
`_available_quantity` is `None` when the key was absent from the JSON. -/
structure ProductOption where
  id : String
  product_id : String
  sku : Option String
  available_quantity_raw : Option Int
  active : Bool
deriving DecidableEq, Repr

/-- The `available_quantity` property: absent input treated as 0. -/
def ProductOption.available_quantity (po : ProductOption) : Int :=
  po.available_quantity_raw.getD 0

/-- `Product` (`api_client.py`): only the fields the fulfillment engine and
metrics read.  `options_dict` is keyed by option id. -/
structure Product where
  id : String
  brand_id : String
  options_dict : List (String × ProductOption)
deriving DecidableEq, Repr

/-- `OrderItem` (`api_client.py`). -/
structure OrderItem where
  id : String
  order_id : String
  product_id : String
  product_option_id : String
  quantity : Int
  price_cents : Int
deriving DecidableEq, Repr

/-- The order lifecycle states of `Order._OrderState`. -/
inductive OrderState where
  | NEW | PROCESSING | PRE_TRANSIT | IN_TRANSIT | DELIVERED | BACKORDERED | CANCELED
deriving DecidableEq, Repr

/-- `Order` (`api_client.py`).  `created_at` is the ISO timestamp string
`YYYYMMDDTHHMMSS.000Z`; lexicographic order on those strings coincides
with chronological order, so it is modelled as a numeric timestamp.
`created_ym` is the `YearMonth` of `date_time` and `state_code` is
`address.state` (the forecasting group key). -/
structure Order where
  id : String
  state : OrderState
  created_at : Nat
  items_dict : List (String × OrderItem)
  created_ym : YearMonth
  state_code : String
deriving DecidableEq, Repr

/-- `Order.is_new`. -/
def Order.is_new (o : Order) : Bool :=
  o.state = OrderState.NEW

/-- `Order.is_sold`: membership in `SOLD_STATES`. -/
def Order.is_sold (o : Order) : Bool :=
  o.state = OrderState.PROCESSING ∨ o.state = OrderState.PRE_TRANSIT ∨
    o.state = OrderState.IN_TRANSIT ∨ o.state = OrderState.DELIVERED

/-- `Order.is_canceled`. -/
def Order.is_canceled (o : Order) : Bool :=
  o.state = OrderState.CANCELED

/-! ## Fulfillment engine (`OrderProcessor`) -/

/-- The outbound requests the engine emits to the request layer. -/
inductive Request where
  /-- one batched PATCH to `/products/options/inventory-levels`; the payload
  lists `(sku, current_quantity)` entries. -/
  | inventoryUpdate (payload : List (String × Int))
  /-- PUT `/orders/{id}/processing`. -/
  | acceptOrder (order_id : String)
  /-- POST `/orders/{id}/items/availability`; the payload maps item ids to
  the option's current (undecremented) available quantity. -/
  | backorderItems (order_id : String) (payload : List (String × Int))
deriving DecidableEq, Repr

/-- `InventoryLevelsUpdater.update_inventory_levels`: iterate the pending
update dict in insertion order, skip options whose `sku` is `None`, and
emit one batched PATCH.  No in-memory quantity is written. -/
def update_inventory_levels (product_options_levels : List (ProductOption × Int)) :
    Request :=
  Request.inventoryUpdate
    (product_options_levels.filterMap
      (fun pq => pq.1.sku.map (fun s => (s, pq.2))))

/-- `self.products_dict[item.product_id].options_dict[item.product_option_id]`,
`None` on either `KeyError`. -/
def resolve_option (products_dict : List (String × Product)) (item : OrderItem) :
    Option ProductOption :=
  (dlookup products_dict item.product_id).bind
    (fun p => dlookup p.options_dict item.product_option_id)

/-- The item loop of `OrderProcessor._update_order_status_and_product_inventory`:
accumulates `items_to_backorder` (appended in iteration order) and
`po_quantity_to_update` (a dict keyed by the resolved `ProductOption`
object; re-assignment overwrites).  An unresolved item is skipped with a
diagnostic (`continue`). -/
def collect_items (products_dict : List (String × Product)) :
    List OrderItem → List (OrderItem × ProductOption) × List (ProductOption × Int) →
    List (OrderItem × ProductOption) × List (ProductOption × Int)
  | [], acc => acc
  | item :: rest, (bo, up) =>
      match resolve_option products_dict item with
      | none => collect_items products_dict rest (bo, up)
      | some po =>
          if po.available_quantity < item.quantity then
            collect_items products_dict rest (bo ++ [(item, po)], up)
          else
            collect_items products_dict rest
              (bo, dictInsert up po (po.available_quantity - item.quantity))

/-- Result of processing one order: its new state, the requests emitted for
it (in emission order), and the catalog afterwards.  The live code path
(`_update_inventory_levels` delegating to
`InventoryLevelsUpdater.update_inventory_levels`) never writes any
option's `_available_quantity`, so the catalog is returned as received. -/
structure ProcessResult where
  state : OrderState
  requests : List Request
  products_dict : List (String × Product)
deriving DecidableEq, Repr

/-- `OrderProcessor._update_order_status_and_product_inventory`. -/
def update_order_status_and_product_inventory
    (products_dict : List (String × Product)) (o : Order) : ProcessResult :=
  let acc := collect_items products_dict (o.items_dict.map Prod.snd) ([], [])
  if acc.1 = [] then
    { state := OrderState.PROCESSING
      requests := [update_inventory_levels acc.2, Request.acceptOrder o.id]
      products_dict := products_dict }
  else
    { state := OrderState.BACKORDERED
      requests := [Request.backorderItems o.id
        (acc.1.map (fun ip => (ip.1.id, ip.2.available_quantity)))]
      products_dict := products_dict }

/-- `OrderProcessor._filter_and_sort_orders_by_creation`: keep `NEW` orders
and sort ascending by `created_at` (Python `sorted` is stable; so is
insertion sort). -/
def filter_and_sort_orders_by_creation (orders : List Order) : List Order :=
  List.insertionSort (fun a b => a.created_at ≤ b.created_at)
    (orders.filter Order.is_new)

/-- `OrderProcessor.process_orders`: one pass over the sorted `NEW` orders.
Each order is processed against `self.products_dict`, which no processing
step mutates (see `ProcessResult.products_dict`). -/
def process_orders (products_dict : List (String × Product)) (orders : List Order) :
    List (String × ProcessResult) :=
  (filter_and_sort_orders_by_creation orders).map
    (fun o => (o.id, update_order_status_and_product_inventory products_dict o))

/-! ## Fulfillment-engine lemmas -/

/-- Every resolvable item of the order can be satisfied from the quantity
currently recorded in the catalog. -/
def all_resolvable_items_sufficient (products_dict : List (String × Product))
    (o : Order) : Prop :=
  ∀ item ∈ o.items_dict.map Prod.snd, ∀ po,
    resolve_option products_dict item = some po →
    ¬ (po.available_quantity < item.quantity)

instance (products_dict : List (String × Product)) (o : Order) :
    Decidable (all_resolvable_items_sufficient products_dict o) := by
  unfold all_resolvable_items_sufficient
  infer_instance

theorem collect_items_backorder_empty (products_dict : List (String × Product))
    (l : List OrderItem) (bo : List (OrderItem × ProductOption))
    (up : List (ProductOption × Int)) :
    (collect_items products_dict l (bo, up)).1 = [] ↔
      bo = [] ∧ ∀ item ∈ l, ∀ po, resolve_option products_dict item = some po →
        ¬ (po.available_quantity < item.quantity) := by
  induction l generalizing bo up with
  | nil => simp [collect_items]
  | cons item rest ih =>
    cases hres : resolve_option products_dict item with
    | none =>
      simp only [collect_items, hres, ih, List.mem_cons]
      constructor
      · rintro ⟨h1, h2⟩
        refine ⟨h1, ?_⟩
        rintro it (rfl | hit) po hpo
        · rw [hres] at hpo; cases hpo
        · exact h2 it hit po hpo
      · rintro ⟨h1, h2⟩
        exact ⟨h1, fun it hit po hpo => h2 it (Or.inr hit) po hpo⟩
    | some po =>
      by_cases hq : po.available_quantity < item.quantity
      · simp only [collect_items, hres, if_pos hq, ih, List.mem_cons]
        constructor
        · rintro ⟨h1, -⟩
          exact absurd h1 (by simp)
        · rintro ⟨-, h2⟩
          exact absurd hq (h2 item (Or.inl rfl) po hres)
      · simp only [collect_items, hres, if_neg hq, ih, List.mem_cons]
        constructor
        · rintro ⟨h1, h2⟩
          refine ⟨h1, ?_⟩
          rintro it (rfl | hit) po' hpo'
          · rw [hres] at hpo'
            cases hpo'
            exact hq
          · exact h2 it hit po' hpo'
        · rintro ⟨h1, h2⟩
          exact ⟨h1, fun it hit po' hpo' => h2 it (Or.inr hit) po' hpo'⟩

/-- **C2**: inventory decrements are all-or-nothing per order: the order is
accepted (transitioned to `PROCESSING`, with its batched decrement
emitted) exactly when every resolvable item's requested quantity can be
satisfied from the current available quantity; otherwise the order becomes
`BACKORDERED`, no inventory-update request is emitted for it, and no
`available_quantity` in the catalog changes as a result of the order. -/
theorem C2_all_or_nothing (products_dict : List (String × Product)) (o : Order) :
    ((update_order_status_and_product_inventory products_dict o).state =
        OrderState.PROCESSING ↔ all_resolvable_items_sufficient products_dict o) ∧
    (¬ all_resolvable_items_sufficient products_dict o →
      (update_order_status_and_product_inventory products_dict o).state =
          OrderState.BACKORDERED ∧
      ∀ payload, Request.inventoryUpdate payload ∉
        (update_order_status_and_product_inventory products_dict o).requests) ∧
    (update_order_status_and_product_inventory products_dict o).products_dict =
      products_dict := by
  have hchar : (collect_items products_dict (o.items_dict.map Prod.snd) ([], [])).1 = []
      ↔ all_resolvable_items_sufficient products_dict o := by
    unfold all_resolvable_items_sufficient
    simpa using collect_items_backorder_empty products_dict
      (o.items_dict.map Prod.snd) [] []
  unfold update_order_status_and_product_inventory
  by_cases hbo : (collect_items products_dict (o.items_dict.map Prod.snd) ([], [])).1 = []
  · rw [if_pos hbo]
    exact ⟨iff_of_true rfl (hchar.mp hbo),
      fun hcon => absurd (hchar.mp hbo) hcon, rfl⟩
  · rw [if_neg hbo]
    exact ⟨iff_of_false (by simp) (fun hs => hbo (hchar.mpr hs)),
      fun _ => ⟨rfl, by simp⟩, rfl⟩

/-- Witness for C2: an order with one insufficient item (requests 5, option
has 3) and one sufficient item (requests 2, option has 10) is backordered
in full, emits no inventory update, and leaves the catalog unchanged. -/
theorem C2_all_or_nothing_witness :
    (update_order_status_and_product_inventory
        [("p1", ⟨"p1", "b1",
          [("opt1", ⟨"opt1", "p1", some "S1", some 3, true⟩),
           ("opt2", ⟨"opt2", "p1", some "S2", some 10, true⟩)]⟩)]
        ⟨"o1", OrderState.NEW, 1,
          [("it1", ⟨"it1", "o1", "p1", "opt1", 5, 100⟩),
           ("it2", ⟨"it2", "o1", "p1", "opt2", 2, 100⟩)], ⟨2023, 1⟩, "CA"⟩).state =
      OrderState.BACKORDERED ∧
    ∀ payload, Request.inventoryUpdate payload ∉
      (update_order_status_and_product_inventory
        [("p1", ⟨"p1", "b1",
          [("opt1", ⟨"opt1", "p1", some "S1", some 3, true⟩),
           ("opt2", ⟨"opt2", "p1", some "S2", some 10, true⟩)]⟩)]
        ⟨"o1", OrderState.NEW, 1,
          [("it1", ⟨"it1", "o1", "p1", "opt1", 5, 100⟩),
           ("it2", ⟨"it2", "o1", "p1", "opt2", 2, 100⟩)], ⟨2023, 1⟩, "CA"⟩).requests :=
  (C2_all_or_nothing _ _).2.1 (by decide)

/-- **C10**: within one order, two items referencing the same option are
each checked against the same original `available_quantity`, and on
acceptance the pending-update dict (keyed by the resolved option object)
retains only the decrement computed for the later-iterated item; the
combined demand is never checked (the hypotheses allow
`i1.quantity + i2.quantity` to exceed the available quantity). -/
theorem C10_same_option_overwrite (products_dict : List (String × Product))
    (o : Order) (i1 i2 : OrderItem) (po : ProductOption)
    (hitems : o.items_dict.map Prod.snd = [i1, i2])
    (h1 : resolve_option products_dict i1 = some po)
    (h2 : resolve_option products_dict i2 = some po)
    (hs1 : ¬ po.available_quantity < i1.quantity)
    (hs2 : ¬ po.available_quantity < i2.quantity) :
    (update_order_status_and_product_inventory products_dict o).state =
        OrderState.PROCESSING ∧
    (update_order_status_and_product_inventory products_dict o).requests =
      [update_inventory_levels [(po, po.available_quantity - i2.quantity)],
       Request.acceptOrder o.id] := by
  unfold update_order_status_and_product_inventory
  rw [hitems]
  simp [collect_items, h1, h2, if_neg hs1, if_neg hs2, dictInsert, dictModify]

/-- Witness for C10: option has 5 units, the two items request 3 and 4
(combined 7 > 5); the order is still accepted and the batch carries only
`5 - 4 = 1` for the shared SKU. -/
theorem C10_same_option_overwrite_witness :
    (update_order_status_and_product_inventory
        [("p1", ⟨"p1", "b1", [("opt1", ⟨"opt1", "p1", some "S1", some 5, true⟩)]⟩)]
        ⟨"o9", OrderState.NEW, 1,
          [("it1", ⟨"it1", "o9", "p1", "opt1", 3, 100⟩),
           ("it2", ⟨"it2", "o9", "p1", "opt1", 4, 100⟩)], ⟨2023, 1⟩, "CA"⟩).state =
      OrderState.PROCESSING ∧
    (update_order_status_and_product_inventory
        [("p1", ⟨"p1", "b1", [("opt1", ⟨"opt1", "p1", some "S1", some 5, true⟩)]⟩)]
        ⟨"o9", OrderState.NEW, 1,
          [("it1", ⟨"it1", "o9", "p1", "opt1", 3, 100⟩),
           ("it2", ⟨"it2", "o9", "p1", "opt1", 4, 100⟩)], ⟨2023, 1⟩, "CA"⟩).requests =
      [update_inventory_levels [(⟨"opt1", "p1", some "S1", some 5, true⟩,
          (5 : Int) - 4)],
       Request.acceptOrder "o9"] :=
  C10_same_option_overwrite _ _
    ⟨"it1", "o9", "p1", "opt1", 3, 100⟩ ⟨"it2", "o9", "p1", "opt1", 4, 100⟩
    ⟨"opt1", "p1", some "S1", some 5, true⟩
    (by decide) (by decide) (by decide) (by decide) (by decide)

/-! ## C1: the in-memory catalog is never decremented (code bug)

The accept path calls `OrderProcessor._update_inventory_levels`, which
delegates to `InventoryLevelsUpdater.update_inventory_levels`; that method
only emits the PATCH request and writes no option's `_available_quantity`
(the per-option `update_product_option` call that did write it back is
commented out in the source).  Hence a later order in the same run reads
the initial quantity, not the decremented one. -/

def optC1 : ProductOption := ⟨"opt1", "p1", some "SKU1", some 5, true⟩

def catalogC1 : List (String × Product) := [("p1", ⟨"p1", "b1", [("opt1", optC1)]⟩)]

def orderC1a : Order :=
  ⟨"o1", OrderState.NEW, 1, [("itA", ⟨"itA", "o1", "p1", "opt1", 5, 100⟩)], ⟨2023, 1⟩, "CA"⟩

def orderC1b : Order :=
  ⟨"o2", OrderState.NEW, 2, [("itB", ⟨"itB", "o2", "p1", "opt1", 5, 100⟩)], ⟨2023, 1⟩, "CA"⟩

/-- **C1 (failing input)**: two `NEW` orders, each requesting 5 units of the
same option with initial quantity 5.  The first accepted order's batch
decrements the quantity to 0, but the second order still reads 5 and is
also accepted (emitting the same decrement to 0).  Under the claim the
second order must read `5 - 5 = 0` and be backordered; the code reads the
undecremented 5, because no decrement is ever applied to the in-memory
catalog. -/
theorem C1_stale_inventory_read :
    process_orders catalogC1 [orderC1a, orderC1b] =
      [("o1", ⟨OrderState.PROCESSING,
          [Request.inventoryUpdate [("SKU1", 0)], Request.acceptOrder "o1"],
          catalogC1⟩),
       ("o2", ⟨OrderState.PROCESSING,
          [Request.inventoryUpdate [("SKU1", 0)], Request.acceptOrder "o2"],
          catalogC1⟩)] ∧
    resolve_option catalogC1 ⟨"itB", "o2", "p1", "opt1", 5, 100⟩ = some optC1 ∧
    optC1.available_quantity = 5 ∧
    optC1.available_quantity - (5 : Int) = 0 := by
  refine ⟨?_, by decide, by decide, by decide⟩
  decide

/-! ## Metrics argmax (`OrderProcessor._sort_and_get_first`) -/

/-- `OrderProcessor._sort_and_get_first`: `(None, None)` on an empty dict,
otherwise the entry whose index comes first after a stable sort of the
indices by score (`reverse=True` for the argmax used by the metrics).
Python's `sorted` is stable; so is insertion sort, and for a total
preorder comparator the stable sorted permutation is unique. -/
def sort_and_get_first {α β : Type} [LinearOrder β]
    (obj_dict : List (α × β)) (reverse : Bool) : Option (α × β) :=
  if reverse then
    (List.insertionSort (fun p q : α × β => q.2 ≤ p.2) obj_dict).head?
  else
    (List.insertionSort (fun p q : α × β => p.2 ≤ q.2) obj_dict).head?

/-- The running-best scan the spec describes, over the entry `p` followed
by the entries `t`: the earlier entry survives a tie, a strictly larger
score replaces it. -/
def running_best1 {α β : Type} [LinearOrder β] (p : α × β) :
    List (α × β) → (α × β)
  | [] => p
  | q :: t => if (running_best1 q t).2 ≤ p.2 then p else running_best1 q t

theorem head_insertionSort_desc {α β : Type} [LinearOrder β]
    (p : α × β) (t : List (α × β)) :
    (List.insertionSort (fun a b : α × β => b.2 ≤ a.2) (p :: t)).head? =
      some (running_best1 p t) := by
  induction t generalizing p with
  | nil => rfl
  | cons q t' ih =>
    have ihq := ih q
    rw [List.insertionSort]
    cases hs : List.insertionSort (fun a b : α × β => b.2 ≤ a.2) (q :: t') with
    | nil => rw [hs] at ihq; cases ihq
    | cons m rest =>
      rw [hs] at ihq
      have hm : m = running_best1 q t' := by simpa using ihq
      rw [List.orderedInsert]
      simp only [running_best1, ← hm]
      by_cases h : m.2 ≤ p.2
      · rw [if_pos h, if_pos h]; rfl
      · rw [if_neg h, if_neg h]; rfl

theorem running_best1_spec {α β : Type} [LinearOrder β]
    (p : α × β) (t : List (α × β)) :
    ∃ i, ∃ hi : i < (p :: t).length, (p :: t).get ⟨i, hi⟩ = running_best1 p t ∧
      (∀ q ∈ p :: t, q.2 ≤ (running_best1 p t).2) ∧
      ∀ q ∈ (p :: t).take i, q.2 < (running_best1 p t).2 := by
  induction t generalizing p with
  | nil =>
    refine ⟨0, by simp, by simp [running_best1], ?_, by simp⟩
    intro q hq
    rcases List.mem_singleton.mp hq with rfl
    exact le_refl _
  | cons q t' ih =>
    obtain ⟨i, hi, hget, hmax, hbef⟩ := ih q
    simp only [running_best1]
    by_cases hle : (running_best1 q t').2 ≤ p.2
    · rw [if_pos hle]
      refine ⟨0, by simp, by simp, ?_, by simp⟩
      intro r hr
      rcases List.mem_cons.mp hr with rfl | hr
      · exact le_refl _
      · exact le_trans (hmax r hr) hle
    · rw [if_neg hle]
      have hlt : p.2 < (running_best1 q t').2 := not_le.mp hle
      refine ⟨i + 1, by simpa using Nat.succ_lt_succ hi, by simpa using hget, ?_, ?_⟩
      · intro r hr
        rcases List.mem_cons.mp hr with rfl | hr
        · exact le_of_lt hlt
        · exact hmax r hr
      · intro r hr
        rw [List.take_succ_cons] at hr
        rcases List.mem_cons.mp hr with rfl | hr
        · exact hlt
        · exact hbef r hr

/-- **C5**: on a non-empty mapping from entities to scores, the argmax
selection used by the metrics (`_sort_and_get_first` with `reverse=True`)
returns the first entry in iteration order whose score equals the maximum
score: everything before it scores strictly less, nothing anywhere scores
more, so an equal score never displaces the running best. -/
theorem C5_argmax_first_encountered {α β : Type} [LinearOrder β]
    (obj_dict : List (α × β)) (hne : obj_dict ≠ []) :
    ∃ p, sort_and_get_first obj_dict true = some p ∧
      ∃ i, ∃ hi : i < obj_dict.length, obj_dict.get ⟨i, hi⟩ = p ∧
        (∀ q ∈ obj_dict, q.2 ≤ p.2) ∧ (∀ q ∈ obj_dict.take i, q.2 < p.2) := by
  cases obj_dict with
  | nil => exact absurd rfl hne
  | cons p t =>
    refine ⟨running_best1 p t, ?_, running_best1_spec p t⟩
    unfold sort_and_get_first
    rw [if_pos rfl]
    exact head_insertionSort_desc p t

/-- Witness for C5: scores `[("x", 5), ("y", 5), ("z", 3)]` — the tie on 5
is won by `"x"`, the first in iteration order. -/
theorem C5_argmax_first_encountered_witness :
    ∃ p, sort_and_get_first [("x", (5 : Int)), ("y", 5), ("z", 3)] true = some p ∧
      ∃ i, ∃ hi : i < ([("x", (5 : Int)), ("y", 5), ("z", 3)]).length,
        ([("x", (5 : Int)), ("y", 5), ("z", 3)]).get ⟨i, hi⟩ = p ∧
        (∀ q ∈ [("x", (5 : Int)), ("y", 5), ("z", 3)], q.2 ≤ p.2) ∧
        (∀ q ∈ ([("x", (5 : Int)), ("y", 5), ("z", 3)]).take i, q.2 < p.2) :=
  C5_argmax_first_encountered [("x", (5 : Int)), ("y", 5), ("z", 3)] (by simp)

/-! ## Metrics aggregation: best-selling option
(`OrderProcessor._print_best_selling_product_option`)

Unlike the fulfillment loop, the metrics loop resolves
`self.products_dict[item.product_id].options_dict[item.product_option_id]`
with no `try/except`: a dangling reference raises an uncaught `KeyError`,
modelled by `Except.error ()`. -/

/-- The items of the sold orders in iteration order (outer loop
`filter(is_sold)`, inner loop over each order's items). -/
def sold_order_items (orders : List Order) : List OrderItem :=
  (orders.filter Order.is_sold).flatMap (fun o => o.items_dict.map Prod.snd)

/-- One step of the tally loop: `count = info.setdefault(po, 0);
info[po] = count + item.quantity`, or an uncaught `KeyError`. -/
def tally_step (products_dict : List (String × Product))
    (acc : List (ProductOption × Int)) (item : OrderItem) :
    Except Unit (List (ProductOption × Int)) :=
  match resolve_option products_dict item with
  | none => Except.error ()
  | some po => Except.ok (dictModify acc po 0 (fun c => c + item.quantity))

/-- `OrderProcessor._print_best_selling_product_option`, up to printing:
tally quantities per resolved option over sold orders, then select with
`_sort_and_get_first(·, True)`. -/
def best_selling_product_option (products_dict : List (String × Product))
    (orders : List Order) : Except Unit (Option (ProductOption × Int)) := do
  let info ← (sold_order_items orders).foldlM (tally_step products_dict) []
  return sort_and_get_first info true

theorem tally_foldlM_error (products_dict : List (String × Product))
    (l : List OrderItem) (item : OrderItem) (hmem : item ∈ l)
    (hres : resolve_option products_dict item = none) :
    ∀ acc, l.foldlM (tally_step products_dict) acc = Except.error () := by
  induction l with
  | nil => cases hmem
  | cons a t ih =>
    intro acc
    rw [List.foldlM]
    cases hres_a : resolve_option products_dict a with
    | none =>
      simp only [tally_step, hres_a]
      rfl
    | some po =>
      rcases List.mem_cons.mp hmem with rfl | hmem'
      · rw [hres_a] at hres; cases hres
      · simp only [tally_step, hres_a]
        exact ih hmem' _

/-- A sold order whose single item references a product absent from the
catalog. -/
def orderC4 : Order :=
  ⟨"o4", OrderState.PROCESSING, 3,
    [("it4", ⟨"it4", "o4", "pX", "optX", 1, 100⟩)], ⟨2023, 1⟩, "NY"⟩

/-- **C4 (counterexample)**: the claim says an unresolvable reference never
aborts the run, in metrics aggregation as well as in fulfillment.  But for
a sold order whose item references an unknown product, the best-selling
metric raises an uncaught `KeyError` (modelled as `Except.error ()`): the
metrics pass aborts instead of skipping the item. -/
theorem C4_counterexample_metrics_aborts :
    best_selling_product_option [] [orderC4] = Except.error () ∧
    orderC4.is_sold = true ∧
    resolve_option [] ⟨"it4", "o4", "pX", "optX", 1, 100⟩ = none :=
  ⟨rfl, rfl, rfl⟩

/-- **C4 (amended)**: during fulfillment reconciliation an unresolvable
item is skipped (it contributes nothing to the backorder or update
accumulators) and every selected order of the run is still processed;
during metrics aggregation, however, an unresolvable reference in any sold
order's item raises an unhandled lookup error that aborts the metrics
computation. -/
theorem C4_unresolvable_reference_handling :
    (∀ (products_dict : List (String × Product)) (item : OrderItem)
        (rest : List OrderItem)
        (acc : List (OrderItem × ProductOption) × List (ProductOption × Int)),
      resolve_option products_dict item = none →
      collect_items products_dict (item :: rest) acc =
        collect_items products_dict rest acc) ∧
    (∀ (products_dict : List (String × Product)) (orders : List Order),
      (process_orders products_dict orders).length =
        (filter_and_sort_orders_by_creation orders).length) ∧
    (∀ (products_dict : List (String × Product)) (orders : List Order)
        (item : OrderItem), item ∈ sold_order_items orders →
      resolve_option products_dict item = none →
      best_selling_product_option products_dict orders = Except.error ()) := by
  refine ⟨?_, ?_, ?_⟩
  · intro products_dict item rest acc hres
    obtain ⟨bo, up⟩ := acc
    simp [collect_items, hres]
  · intro products_dict orders
    unfold process_orders
    exact List.length_map _ _
  · intro products_dict orders item hmem hres
    unfold best_selling_product_option
    rw [tally_foldlM_error products_dict (sold_order_items orders) item hmem hres []]
    rfl

/-- Witness for C4's amended claim, at the counterexample's inputs plus a
concrete fulfillment order whose unresolvable item is skipped. -/
theorem C4_unresolvable_reference_handling_witness :
    collect_items [] [⟨"it4", "o4", "pX", "optX", 1, 100⟩] ([], []) =
      collect_items [] [] ([], []) ∧
    best_selling_product_option [] [orderC4] = Except.error () :=
  ⟨C4_unresolvable_reference_handling.1 [] ⟨"it4", "o4", "pX", "optX", 1, 100⟩ [] ([], []) rfl,
   C4_unresolvable_reference_handling.2.2 [] [orderC4]
     ⟨"it4", "o4", "pX", "optX", 1, 100⟩ (by simp [sold_order_items, orderC4, Order.is_sold]) rfl⟩

/-! ## Sale stream (`OrderProcessor.get_products_sale_series`)

The source iterates over `self.orders` — all fetched orders, with no
`is_sold` filter — and appends one `Sale` per order item under the item's
`product_option_id` key. -/

/-- `Sale` (`sale_prediction.py`): the builder only ever reads the
year/month of `sale_date`, so the date is carried as a `YearMonth`. -/
structure Sale where
  product_option_id : String
  sale_date : YearMonth
  quantity : Int
  group : String
deriving DecidableEq, Repr

/-- `Sale(order_item.product_option_id, order.date_time,
order_item.quantity, order.address.state)`. -/
def mkSale (o : Order) (item : OrderItem) : Sale :=
  ⟨item.product_option_id, o.created_ym, item.quantity, o.state_code⟩

/-- `OrderProcessor.get_products_sale_series`: nested loop over all orders
and their items, `po_sales.setdefault(key, []).append(sale)`. -/
def get_products_sale_series (orders : List Order) : List (String × List Sale) :=
  orders.foldl (fun po_sales o =>
    (o.items_dict.map Prod.snd).foldl (fun acc item =>
      dictModify acc item.product_option_id [] (fun l => l ++ [mkSale o item])) po_sales) []

/-- The `(key, Sale)` pairs the nested loop appends, flattened in
traversal order: one per (order, item) pair, for every order. -/
def all_sale_pairs (orders : List Order) : List (String × Sale) :=
  orders.flatMap (fun o => (o.items_dict.map Prod.snd).map
    (fun item => (item.product_option_id, mkSale o item)))

/-- One append step of the sale-series accumulation. -/
def series_step (acc : List (String × List Sale)) (p : String × Sale) :
    List (String × List Sale) :=
  dictModify acc p.1 [] (fun l => l ++ [p.2])

theorem get_products_sale_series_eq_foldl (orders : List Order) :
    get_products_sale_series orders = (all_sale_pairs orders).foldl series_step [] := by
  suffices h : ∀ (os : List Order) (acc : List (String × List Sale)),
      os.foldl (fun po_sales o =>
        (o.items_dict.map Prod.snd).foldl (fun acc item =>
          dictModify acc item.product_option_id [] (fun l => l ++ [mkSale o item])) po_sales) acc
        = (all_sale_pairs os).foldl series_step acc by
    exact h orders []
  intro os
  induction os with
  | nil => intro acc; rfl
  | cons o rest ih =>
    intro acc
    rw [List.foldl_cons, ih]
    unfold all_sale_pairs
    rw [List.flatMap_cons, List.foldl_append]
    congr 1
    rw [List.foldl_map, List.foldl_map, List.foldl_map]
    rfl

theorem series_foldl_lookup (l : List (String × Sale)) :
    ∀ (acc : List (String × List Sale)) (k : String),
      (dlookup (l.foldl series_step acc) k).getD [] =
        (dlookup acc k).getD [] ++ (l.filter (fun p => p.1 = k)).map Prod.snd := by
  induction l with
  | nil => intro acc k; simp
  | cons p t ih =>
    intro acc k
    rw [List.foldl_cons, ih]
    by_cases h : p.1 = k
    · subst h
      rw [series_step, dlookup_dictModify_self]
      simp [List.filter_cons]
    · rw [series_step, dlookup_dictModify_other _ _ _ _ _ (Ne.symm h)]
      simp [List.filter_cons, h]

/-- A `CANCELED` order with one item: not in the sold set. -/
def orderC3 : Order :=
  ⟨"oc", OrderState.CANCELED, 7,
    [("itc", ⟨"itc", "oc", "p1", "optZ", 2, 100⟩)], ⟨2023, 5⟩, "WA"⟩

/-- **C3 (counterexample)**: the claim says only orders in the sold set
contribute Sales.  But `get_products_sale_series` iterates `self.orders`
with no state filter: a `CANCELED` order's item produces a `Sale`. -/
theorem C3_counterexample_canceled_order_produces_sale :
    get_products_sale_series [orderC3] =
      [("optZ", [⟨"optZ", ⟨2023, 5⟩, 2, "WA"⟩])] ∧
    orderC3.is_sold = false := by
  refine ⟨?_, rfl⟩
  decide

/-- **C3 (amended)**: the stream fed to the Sales Series Builder contains
exactly one `Sale` per (order, item) pair of every fetched order,
regardless of the order's state: for each option id the bucket equals, in
traversal order, the sales of exactly the items referencing it. -/
theorem C3_one_sale_per_order_item (orders : List Order) (k : String) :
    (dlookup (get_products_sale_series orders) k).getD [] =
      ((all_sale_pairs orders).filter (fun p => p.1 = k)).map Prod.snd := by
  rw [get_products_sale_series_eq_foldl]
  simpa using series_foldl_lookup (all_sale_pairs orders) [] k

/-! ## Forecast orchestrator (`SalePredictor._predict`)

The external forecasting capability (`VAR(...).fit()` + 1-step forecast)
is modelled as an oracle `fit` that either returns a prediction vector or
fails the way `statsmodels` does on degenerate input (a `ValueError`).
Per group the source wraps the body in `try/except (ValueError,
VARLessThan2Variables)` and stores `None` for the group on either
exception; `data[group][0]` on an empty matrix would raise an uncaught
`IndexError`, modelled as `Except.error ()`. -/

/-- Outcome of invoking the external forecasting capability. -/
inductive FitResult where
  /-- the fitted model produced a 1-step-ahead prediction per column. -/
  | ok (prediction : List Int)
  /-- the capability raised (`ValueError`), e.g. on numerically degenerate
  input or too few observations. -/
  | fitError
deriving DecidableEq, Repr

/-- The per-group body of `SalePredictor._predict`: `None` (unavailable)
when the matrix has fewer than 2 columns (`VARLessThan2Variables`, raised
before the model is invoked) or when the capability fails (`ValueError`);
an uncaught error on an empty matrix. -/
def predict_group (fit : List (List Int) → FitResult) (m : List (List Int)) :
    Except Unit (Option (List Int)) :=
  match m with
  | [] => Except.error ()
  | r :: _ =>
      if r.length < 2 then Except.ok none
      else
        match fit m with
        | FitResult.ok p => Except.ok (some p)
        | FitResult.fitError => Except.ok none

/-- Total value of `predict_group` on a non-empty matrix. -/
def predict_group_val (fit : List (List Int) → FitResult) (m : List (List Int)) :
    Option (List Int) :=
  match m with
  | [] => none
  | r :: _ =>
      if r.length < 2 then none
      else
        match fit m with
        | FitResult.ok p => some p
        | FitResult.fitError => none

/-- `SalePredictor._predict`: the loop over the per-group matrices,
recording each group's result (prediction vector or `None`); an uncaught
exception aborts the whole loop. -/
def predict (fit : List (List Int) → FitResult)
    (data : List (String × List (List Int))) :
    Except Unit (List (String × Option (List Int))) :=
  data.foldlM (fun acc p =>
    match predict_group fit p.2 with
    | Except.error e => Except.error e
    | Except.ok v => Except.ok (acc ++ [(p.1, v)])) []

theorem predict_group_ok_of_ne_nil (fit : List (List Int) → FitResult)
    (m : List (List Int)) (hm : m ≠ []) :
    predict_group fit m = Except.ok (predict_group_val fit m) := by
  cases m with
  | nil => exact absurd rfl hm
  | cons r rest =>
    rw [predict_group, predict_group_val]
    by_cases h : r.length < 2
    · rw [if_pos h, if_pos h]
    · rw [if_neg h, if_neg h]
      cases fit (r :: rest) <;> rfl

theorem predict_foldl_ok (fit : List (List Int) → FitResult) :
    ∀ (data : List (String × List (List Int)))
      (acc : List (String × Option (List Int))),
      (∀ p ∈ data, p.2 ≠ ([] : List (List Int))) →
      data.foldlM (fun acc p =>
        match predict_group fit p.2 with
        | Except.error e => Except.error e
        | Except.ok v => Except.ok (acc ++ [(p.1, v)])) acc =
      Except.ok (acc ++ data.map (fun p => (p.1, predict_group_val fit p.2))) := by
  intro data
  induction data with
  | nil =>
    intro acc _
    simp only [List.foldlM, List.map_nil, List.append_nil]
    rfl
  | cons p t ih =>
    intro acc hne
    rw [List.foldlM]
    rw [predict_group_ok_of_ne_nil fit p.2 (hne p (List.mem_cons_self p t))]
    have := ih (acc ++ [(p.1, predict_group_val fit p.2)])
      (fun q hq => hne q (List.mem_cons_of_mem p hq))
    simpa using this

/-- **C9**: a group matrix with fewer than 2 columns is marked unavailable
(`None`) without invoking the forecasting capability (the result is the
same for every oracle); a failure raised by the capability on a non-empty
matrix is caught and mapped to unavailable rather than propagating; and
when every group's matrix is non-empty the loop completes with one result
per group, so forecasting continues for the remaining groups. -/
theorem C9_degenerate_forecast_unavailable :
    (∀ (fit : List (List Int) → FitResult) (r : List Int) (rest : List (List Int)),
      r.length < 2 → predict_group fit (r :: rest) = Except.ok none) ∧
    (∀ (fit : List (List Int) → FitResult) (m : List (List Int)),
      m ≠ [] → fit m = FitResult.fitError →
      predict_group fit m = Except.ok none) ∧
    (∀ (fit : List (List Int) → FitResult)
        (data : List (String × List (List Int))),
      (∀ p ∈ data, p.2 ≠ ([] : List (List Int))) →
      predict fit data =
        Except.ok (data.map (fun p => (p.1, predict_group_val fit p.2)))) := by
  refine ⟨?_, ?_, ?_⟩
  · intro fit r rest h
    rw [predict_group, if_pos h]
  · intro fit m hm hfit
    cases m with
    | nil => exact absurd rfl hm
    | cons r rest =>
      rw [predict_group]
      by_cases h : r.length < 2
      · rw [if_pos h]
      · rw [if_neg h, hfit]
  · intro fit data hne
    unfold predict
    simpa using predict_foldl_ok fit data [] hne

/-- Witness for C9: with an always-failing capability, a 1-column matrix
and the spec's degenerate 2-column 1-row matrix are both unavailable, and
a 2-group run still yields one result per group. -/
theorem C9_degenerate_forecast_unavailable_witness :
    predict_group (fun _ => FitResult.fitError) [[0]] = Except.ok none ∧
    predict_group (fun _ => FitResult.fitError) [[0, 0]] = Except.ok none ∧
    predict (fun _ => FitResult.fitError) [("X", [[0, 0]]), ("Y", [[1]])] =
      Except.ok [("X", predict_group_val (fun _ => FitResult.fitError) [[0, 0]]),
        ("Y", predict_group_val (fun _ => FitResult.fitError) [[1]])] :=
  ⟨C9_degenerate_forecast_unavailable.1 (fun _ => FitResult.fitError) [0] [] (by decide),
   C9_degenerate_forecast_unavailable.2.1 (fun _ => FitResult.fitError) [[0, 0]]
     (by simp) rfl,
   C9_degenerate_forecast_unavailable.2.2 (fun _ => FitResult.fitError)
     [("X", [[0, 0]]), ("Y", [[1]])] (by simp)⟩

/-! ## Further association-list and order lemmas, for the series builder -/

theorem dlookup_append {κ ν : Type} [DecidableEq κ]
    (d1 d2 : List (κ × ν)) (k : κ) :
    dlookup (d1 ++ d2) k =
      match dlookup d1 k with
      | some v => some v
      | none => dlookup d2 k := by
  induction d1 with
  | nil => simp [dlookup]
  | cons p t ih =>
    obtain ⟨k0, v0⟩ := p
    by_cases h : k0 = k <;> simp [dlookup, h, ih]

theorem dlookup_isSome_iff_mem_keys {κ ν : Type} [DecidableEq κ]
    (d : List (κ × ν)) (k : κ) :
    (dlookup d k).isSome ↔ k ∈ d.map Prod.fst := by
  induction d with
  | nil => simp [dlookup]
  | cons p t ih =>
    obtain ⟨k0, v0⟩ := p
    rw [List.map_cons]
    by_cases h : k0 = k
    · subst h
      simp [dlookup]
    · rw [List.mem_cons]
      simp only [dlookup, if_neg h]
      rw [ih]
      constructor
      · exact Or.inr
      · rintro (rfl | hm)
        · exact absurd rfl h
        · exact hm

theorem dlookup_of_mem_of_nodup {κ ν : Type} [DecidableEq κ]
    {d : List (κ × ν)} {k : κ} {v : ν}
    (hnd : (d.map Prod.fst).Nodup) (hmem : (k, v) ∈ d) :
    dlookup d k = some v := by
  induction d with
  | nil => cases hmem
  | cons p t ih =>
    obtain ⟨k0, v0⟩ := p
    rw [List.map_cons, List.nodup_cons] at hnd
    rcases List.mem_cons.mp hmem with heq | hmem'
    · cases heq
      simp [dlookup]
    · have hk : k0 ≠ k := by
        intro h
        subst h
        exact hnd.1 (List.mem_map.mpr ⟨(k0, v), hmem', rfl⟩)
      simp [dlookup, hk]
      exact ih hnd.2 hmem'

/-- First-encountered-order deduplication: the key order Python dicts give
to first insertions. -/
def firstDedup {κ : Type} [DecidableEq κ] (l : List κ) : List κ :=
  l.foldl (fun acc x => if x ∈ acc then acc else acc ++ [x]) []

theorem mem_firstDedup_foldl {κ : Type} [DecidableEq κ] (l : List κ) :
    ∀ (acc : List κ) (x : κ),
      (x ∈ l.foldl (fun acc y => if y ∈ acc then acc else acc ++ [y]) acc) ↔
        (x ∈ acc ∨ x ∈ l) := by
  induction l with
  | nil => simp
  | cons y t ih =>
    intro acc x
    rw [List.foldl_cons, ih]
    by_cases h : y ∈ acc
    · rw [if_pos h]
      constructor
      · rintro (hx | hx)
        · exact Or.inl hx
        · exact Or.inr (List.mem_cons_of_mem y hx)
      · rintro (hx | hx)
        · exact Or.inl hx
        · rcases List.mem_cons.mp hx with rfl | hx
          · exact Or.inl h
          · exact Or.inr hx
    · rw [if_neg h]
      simp only [List.mem_append, List.mem_singleton, List.mem_cons]
      tauto

theorem mem_firstDedup {κ : Type} [DecidableEq κ] (l : List κ) (x : κ) :
    x ∈ firstDedup l ↔ x ∈ l := by
  unfold firstDedup
  rw [mem_firstDedup_foldl]
  simp

theorem firstDedup_nodup_foldl {κ : Type} [DecidableEq κ] (l : List κ) :
    ∀ acc : List κ, acc.Nodup →
      (l.foldl (fun acc y => if y ∈ acc then acc else acc ++ [y]) acc).Nodup := by
  induction l with
  | nil => intro acc h; simpa using h
  | cons y t ih =>
    intro acc hacc
    rw [List.foldl_cons]
    by_cases h : y ∈ acc
    · rw [if_pos h]; exact ih acc hacc
    · rw [if_neg h]
      refine ih _ ?_
      simpa [List.nodup_append] using ⟨hacc, h⟩

theorem firstDedup_nodup {κ : Type} [DecidableEq κ] (l : List κ) :
    (firstDedup l).Nodup :=
  firstDedup_nodup_foldl l [] List.nodup_nil

theorem firstDedup_append_one {κ : Type} [DecidableEq κ] (l : List κ) (x : κ) :
    firstDedup (l ++ [x]) =
      if x ∈ firstDedup l then firstDedup l else firstDedup l ++ [x] := by
  unfold firstDedup
  rw [List.foldl_append]
  rfl

/-- The running minimum the source keeps in `group_initial_year_month`:
the first sale's month, replaced whenever a strictly smaller
(`YearMonth.__lt__`) month appears. -/
def earliest (l : List YearMonth) : Option YearMonth :=
  l.foldl (fun acc ym =>
    match acc with
    | none => some ym
    | some i => if ym.lt i then some ym else some i) none

theorem earliest_foldl_some (l : List YearMonth) :
    ∀ i : YearMonth, ∃ j, l.foldl (fun acc ym =>
      match acc with
      | none => some ym
      | some i => if ym.lt i then some ym else some i) (some i) = some j := by
  induction l with
  | nil => intro i; exact ⟨i, rfl⟩
  | cons ym t ih =>
    intro i
    rw [List.foldl_cons]
    by_cases h : ym.lt i
    · simpa [h] using ih ym
    · simpa [h] using ih i

theorem earliest_eq_none_iff (l : List YearMonth) :
    earliest l = none ↔ l = [] := by
  cases l with
  | nil => simp [earliest]
  | cons ym t =>
    simp only [earliest, List.foldl_cons]
    obtain ⟨j, hj⟩ := earliest_foldl_some t ym
    constructor
    · intro h
      rw [hj] at h
      cases h
    · intro h
      cases h

theorem earliest_append_one (l : List YearMonth) (ym : YearMonth) :
    earliest (l ++ [ym]) =
      match earliest l with
      | none => some ym
      | some i => if ym.lt i then some ym else some i := by
  unfold earliest
  rw [List.foldl_append]
  rfl

theorem earliest_mem_min (l : List YearMonth) :
    ∀ i, earliest l = some i → i ∈ l ∧ ∀ m ∈ l, ¬ (m.lt i = true) := by
  induction l using List.reverseRecOn with
  | nil => intro i h; cases h
  | append_singleton t ym ih =>
    intro i h
    rw [earliest_append_one] at h
    cases he : earliest t with
    | none =>
      rw [he] at h
      cases h
      have ht : t = [] := (earliest_eq_none_iff t).mp he
      subst ht
      refine ⟨by simp, ?_⟩
      intro m hm
      rcases List.mem_singleton.mp (by simpa using hm) with rfl
      simp [YearMonth.lt]
    | some i0 =>
      rw [he] at h
      dsimp only at h
      obtain ⟨hi0mem, hi0min⟩ := ih i0 he
      by_cases hlt : ym.lt i0
      · rw [if_pos hlt] at h
        cases h
        refine ⟨List.mem_append_right t (List.mem_singleton_self ym), ?_⟩
        intro m hm
        rcases List.mem_append.mp hm with hm | hm
        · intro hml
          apply hi0min m hm
          simp only [YearMonth.lt, decide_eq_true_eq] at hml hlt ⊢
          exact lt_trans hml hlt
        · rcases List.mem_singleton.mp hm with rfl
          simp [YearMonth.lt]
      · rw [if_neg hlt] at h
        cases h
        refine ⟨List.mem_append_left _ hi0mem, ?_⟩
        intro m hm
        rcases List.mem_append.mp hm with hm | hm
        · exact hi0min m hm
        · rcases List.mem_singleton.mp hm with rfl
          exact hlt

/-- For calendar months (1..12), the packed `year*100 + month` comparison
used by `YearMonth.__lt__` agrees with chronological (`year*12 + month`)
order. -/
theorem yearMonth_lt_iff (a b : YearMonth)
    (ha : 1 ≤ a.month ∧ a.month ≤ 12) (hb : 1 ≤ b.month ∧ b.month ≤ 12) :
    a.lt b = true ↔ a.year * 12 + a.month < b.year * 12 + b.month := by
  simp only [YearMonth.lt, YearMonth.year_month, decide_eq_true_eq]
  omega

/-! ## Sales series builder, grouping pass
(`SalePredictor._group_and_index_sales_by_month`) -/

/-- One `(outer dict key, Sale)` step:
`grouped_sales.setdefault(sale.group, {}).setdefault(po, {}).setdefault(ym, 0)`
then `+= sale.quantity`, followed by the running-minimum update of
`group_initial_year_month` (`setdefault`, then replace if strictly
smaller). -/
def gi_step
    (acc : List (String × List (String × List (YearMonth × Int))) × List (String × YearMonth))
    (p : String × Sale) :
    List (String × List (String × List (YearMonth × Int))) × List (String × YearMonth) :=
  (dictModify acc.1 p.2.group []
     (fun gd => dictModify gd p.1 []
       (fun pod => dictModify pod p.2.sale_date 0 (fun q => q + p.2.quantity))),
   match dlookup acc.2 p.2.group with
   | none => acc.2 ++ [(p.2.group, p.2.sale_date)]
   | some i0 =>
       if p.2.sale_date.lt i0 then dictInsert acc.2 p.2.group p.2.sale_date
       else acc.2)

/-- `SalePredictor._group_and_index_sales_by_month`: nested loop over
`po_sales.keys()` and each option's sales. -/
def group_and_index_sales_by_month (po_sales : List (String × List Sale)) :
    List (String × List (String × List (YearMonth × Int))) × List (String × YearMonth) :=
  po_sales.foldl (fun acc ps => ps.2.foldl (fun a sale => gi_step a (ps.1, sale)) acc)
    (([], []))

/-- The `(outer dict key, Sale)` pairs in traversal order. -/
def sale_pairs (po_sales : List (String × List Sale)) : List (String × Sale) :=
  po_sales.flatMap (fun ps => ps.2.map (fun s => (ps.1, s)))

theorem group_and_index_eq_foldl (po_sales : List (String × List Sale)) :
    group_and_index_sales_by_month po_sales = (sale_pairs po_sales).foldl gi_step ([], []) := by
  suffices h : ∀ (ps : List (String × List Sale)) acc,
      ps.foldl (fun acc ps => ps.2.foldl (fun a sale => gi_step a (ps.1, sale)) acc) acc
        = (sale_pairs ps).foldl gi_step acc by
    exact h po_sales ([], [])
  intro ps
  induction ps with
  | nil => intro acc; rfl
  | cons q rest ih =>
    intro acc
    rw [List.foldl_cons, ih]
    unfold sale_pairs
    rw [List.flatMap_cons, List.foldl_append, List.foldl_map]

/-- Months of the sales of group `g` among the processed pairs, in
traversal order. -/
def monthsOf (done : List (String × Sale)) (g : String) : List YearMonth :=
  done.filterMap (fun p => if p.2.group = g then some p.2.sale_date else none)

/-- Outer dict keys of the sales of group `g` among the processed pairs. -/
def optionsOf (done : List (String × Sale)) (g : String) : List String :=
  done.filterMap (fun p => if p.2.group = g then some p.1 else none)

/-- Groups of the processed pairs. -/
def groupsOf (done : List (String × Sale)) : List String :=
  done.map (fun p => p.2.group)

theorem monthsOf_append_one (done : List (String × Sale)) (p : String × Sale) (g : String) :
    monthsOf (done ++ [p]) g =
      monthsOf done g ++ (if p.2.group = g then [p.2.sale_date] else []) := by
  unfold monthsOf
  rw [List.filterMap_append]
  congr 1
  by_cases h : p.2.group = g <;> simp [h]

theorem optionsOf_append_one (done : List (String × Sale)) (p : String × Sale) (g : String) :
    optionsOf (done ++ [p]) g =
      optionsOf done g ++ (if p.2.group = g then [p.1] else []) := by
  unfold optionsOf
  rw [List.filterMap_append]
  congr 1
  by_cases h : p.2.group = g <;> simp [h]

theorem monthsOf_eq_nil_of_not_mem (done : List (String × Sale)) (g : String)
    (h : g ∉ groupsOf done) : monthsOf done g = [] := by
  rw [monthsOf, List.filterMap_eq_nil]
  intro p hp
  have : p.2.group ≠ g := by
    intro heq
    exact h (List.mem_map.mpr ⟨p, hp, heq⟩)
  simp [this]

theorem optionsOf_eq_nil_of_not_mem (done : List (String × Sale)) (g : String)
    (h : g ∉ groupsOf done) : optionsOf done g = [] := by
  rw [optionsOf, List.filterMap_eq_nil]
  intro p hp
  have : p.2.group ≠ g := by
    intro heq
    exact h (List.mem_map.mpr ⟨p, hp, heq⟩)
  simp [this]

/-- Fold invariant of the grouping pass: the running minimum tracks the
earliest observed month per group, the group keys appear in
first-encountered order, each group's inner dict keys are its options in
first-encountered order, and every recorded month was observed for that
group. -/
def gi_inv (done : List (String × Sale))
    (st : List (String × List (String × List (YearMonth × Int))) × List (String × YearMonth)) :
    Prop :=
  (∀ g, dlookup st.2 g = earliest (monthsOf done g)) ∧
  (st.1.map Prod.fst = firstDedup (groupsOf done)) ∧
  (∀ g gd, dlookup st.1 g = some gd →
    gd.map Prod.fst = firstDedup (optionsOf done g) ∧
    ∀ po pod, dlookup gd po = some pod →
      ∀ yq ∈ pod, yq.1 ∈ monthsOf done g)

theorem gi_inv_step (done : List (String × Sale))
    (st : List (String × List (String × List (YearMonth × Int))) × List (String × YearMonth))
    (p : String × Sale) (h : gi_inv done st) :
    gi_inv (done ++ [p]) (gi_step st p) := by
  obtain ⟨h1, h2, h3⟩ := h
  refine ⟨?_, ?_, ?_⟩
  · -- running minimum per group
    intro g
    rw [monthsOf_append_one]
    by_cases hg : p.2.group = g
    · rw [if_pos hg]
      subst hg
      show dlookup (gi_step st p).2 p.2.group = _
      rw [earliest_append_one, ← h1 p.2.group]
      unfold gi_step
      cases hdl : dlookup st.2 p.2.group with
      | none =>
        dsimp only
        rw [dlookup_append, hdl]
        simp [dlookup]
      | some i0 =>
        dsimp only
        by_cases hlt : p.2.sale_date.lt i0
        · rw [if_pos hlt, if_pos hlt]
          unfold dictInsert
          rw [dlookup_dictModify_self]
        · rw [if_neg hlt, if_neg hlt, hdl]
    · rw [if_neg hg, List.append_nil, ← h1 g]
      unfold gi_step
      cases hdl : dlookup st.2 p.2.group with
      | none =>
        dsimp only
        rw [dlookup_append]
        cases hdg : dlookup st.2 g with
        | none => simp [dlookup, hg]
        | some v => rfl
      | some i0 =>
        dsimp only
        by_cases hlt : p.2.sale_date.lt i0
        · rw [if_pos hlt]
          unfold dictInsert
          exact dlookup_dictModify_other _ _ _ _ _ (Ne.symm hg)
        · rw [if_neg hlt]
  · -- group keys in first-encountered order
    show (dictModify st.1 p.2.group [] _).map Prod.fst = _
    rw [keys_dictModify]
    have hgroups : groupsOf (done ++ [p]) = groupsOf done ++ [p.2.group] := by
      unfold groupsOf
      simp
    rw [hgroups, firstDedup_append_one]
    have hifc : (dlookup st.1 p.2.group).isSome
        ↔ p.2.group ∈ firstDedup (groupsOf done) := by
      rw [dlookup_isSome_iff_mem_keys, h2]
    by_cases hc : (dlookup st.1 p.2.group).isSome
    · rw [if_pos hc, if_pos (hifc.mp hc), h2]
    · rw [if_neg hc, if_neg (fun hm => hc (hifc.mpr hm)), h2]
  · -- per-group inner dicts
    intro g gd' hdl'
    by_cases hg : g = p.2.group
    · rw [show (gi_step st p).1 = dictModify st.1 p.2.group []
            (fun gd => dictModify gd p.1 []
              (fun pod => dictModify pod p.2.sale_date 0 (fun q => q + p.2.quantity)))
          from rfl] at hdl'
      rw [← hg] at hdl'
      rw [dlookup_dictModify_self] at hdl'
      have hgd' : gd' = dictModify ((dlookup st.1 g).getD []) p.1 []
          (fun pod => dictModify pod p.2.sale_date 0 (fun q => q + p.2.quantity)) :=
        (Option.some.injEq _ _ ▸ hdl').symm
      have hgd0 : ((dlookup st.1 g).getD []).map Prod.fst = firstDedup (optionsOf done g) ∧
          ∀ po pod, dlookup ((dlookup st.1 g).getD []) po = some pod →
            ∀ yq ∈ pod, yq.1 ∈ monthsOf done g := by
        cases hacc : dlookup st.1 g with
        | some gd => simpa using h3 g gd hacc
        | none =>
          have hnm : g ∉ groupsOf done := by
            intro hm
            have : (dlookup st.1 g).isSome := by
              rw [dlookup_isSome_iff_mem_keys, h2, mem_firstDedup]
              exact hm
            rw [hacc] at this
            cases this
          rw [optionsOf_eq_nil_of_not_mem done g hnm]
          refine ⟨rfl, ?_⟩
          intro po pod hpo
          cases hpo
      refine ⟨?_, ?_⟩
      · rw [hgd', keys_dictModify, optionsOf_append_one, if_pos hg.symm,
          firstDedup_append_one]
        have hifc : (dlookup ((dlookup st.1 g).getD []) p.1).isSome
            ↔ p.1 ∈ firstDedup (optionsOf done g) := by
          rw [dlookup_isSome_iff_mem_keys, hgd0.1]
        by_cases hc : (dlookup ((dlookup st.1 g).getD []) p.1).isSome
        · rw [if_pos hc, if_pos (hifc.mp hc), hgd0.1]
        · rw [if_neg hc, if_neg (fun hm => hc (hifc.mpr hm)), hgd0.1]
      · intro po pod hpo yq hyq
        rw [monthsOf_append_one, if_pos hg.symm]
        by_cases hpo' : po = p.1
        · subst hpo'
          rw [hgd', dlookup_dictModify_self] at hpo
          have hpod : pod = dictModify ((dlookup ((dlookup st.1 g).getD []) p.1).getD [])
              p.2.sale_date 0 (fun q => q + p.2.quantity) :=
            (Option.some.injEq _ _ ▸ hpo).symm
          rw [hpod] at hyq
          rcases mem_dictModify hyq with hq | hq
          · rw [hq]
            exact List.mem_append_right _ (List.mem_singleton_self _)
          · cases hacc2 : dlookup ((dlookup st.1 g).getD []) p.1 with
            | none =>
              rw [hacc2] at hq
              cases hq
            | some pod0 =>
              rw [hacc2] at hq
              exact List.mem_append_left _ (hgd0.2 p.1 pod0 hacc2 yq (by simpa using hq))
        · rw [hgd', dlookup_dictModify_other _ _ _ _ _ hpo'] at hpo
          exact List.mem_append_left _ (hgd0.2 po pod hpo yq hyq)
    · rw [show (gi_step st p).1 = dictModify st.1 p.2.group []
            (fun gd => dictModify gd p.1 []
              (fun pod => dictModify pod p.2.sale_date 0 (fun q => q + p.2.quantity)))
          from rfl] at hdl'
      rw [dlookup_dictModify_other _ _ _ _ _ hg] at hdl'
      obtain ⟨hk, hmo⟩ := h3 g gd' hdl'
      have hgne : p.2.group ≠ g := fun hh => hg hh.symm
      refine ⟨?_, ?_⟩
      · rw [optionsOf_append_one, if_neg hgne, List.append_nil]
        exact hk
      · intro po pod hpo yq hyq
        rw [monthsOf_append_one, if_neg hgne, List.append_nil]
        exact hmo po pod hpo yq hyq

theorem gi_inv_foldl (l : List (String × Sale)) :
    gi_inv l (l.foldl gi_step ([], [])) := by
  induction l using List.reverseRecOn with
  | nil =>
    refine ⟨?_, rfl, ?_⟩
    · intro g; rfl
    · intro g gd h; cases h
  | append_singleton t p ih =>
    rw [List.foldl_append]
    exact gi_inv_step t _ p ih

/-! ## Sales series builder, matrix pass (`SalePredictor._prepare_data`) -/

/-- One numpy-style cell assignment `group_data[r][c] = v`: a row index in
`[0, len)` writes directly, a negative index in `[-len, 0)` wraps (numpy
semantics), anything else raises `IndexError` (`none`); a column index out
of range likewise fails. -/
def npSet (m : List (List Int)) (r : Int) (c : Nat) (v : Int) :
    Option (List (List Int)) :=
  if 0 ≤ r ∧ r < (m.length : Int) then
    if c < (m.getD r.toNat []).length then
      some (m.set r.toNat ((m.getD r.toNat []).set c v))
    else none
  else if -(m.length : Int) ≤ r ∧ r < 0 then
    if c < (m.getD (r + (m.length : Int)).toNat []).length then
      some (m.set (r + (m.length : Int)).toNat
        ((m.getD (r + (m.length : Int)).toNat []).set c v))
    else none
  else none

/-- The per-group body of `SalePredictor._prepare_data`:
`zeros((today.months_diff(initial) + 1, len(grouped_sales[group])))` (a
negative row count raises `ValueError`, modelled as `none`), then one cell
assignment per `(po, year_month)` bucket, with
`po_index = list(keys).index(po)` and row `ym.months_diff(initial)`. -/
def prepare_group (gd : List (String × List (YearMonth × Int)))
    (i0 today : YearMonth) : Option (List (List Int)) :=
  if today.months_diff i0 + 1 < 0 then none
  else
    gd.foldlM (fun m pd =>
      pd.2.foldlM (fun m2 yq =>
        npSet m2 (yq.1.months_diff i0) ((gd.map Prod.fst).indexOf pd.1) yq.2) m)
      (List.replicate (today.months_diff i0 + 1).toNat (List.replicate gd.length 0))

/-- `SalePredictor._prepare_data`: one matrix per group, iterating the
grouped dict in insertion order; `group_initial_date[group]` would raise
on a missing key (`none`), and any failed cell write aborts the pass. -/
def prepare_data (grouped : List (String × List (String × List (YearMonth × Int))))
    (initial : List (String × YearMonth)) (today : YearMonth) :
    Option (List (String × List (List Int))) :=
  grouped.foldlM (fun data gp =>
    match dlookup initial gp.1 with
    | none => none
    | some i0 => (prepare_group gp.2 i0 today).map (fun M => data ++ [(gp.1, M)])) []

/-- The data-construction portion of `SalePredictor.predict_next_month_sales`:
group and index the sales, then build the per-group dense matrices. -/
def sale_series_matrices (po_sales : List (String × List Sale)) (today : YearMonth) :
    Option (List (String × List (List Int))) :=
  prepare_data (group_and_index_sales_by_month po_sales).1
    (group_and_index_sales_by_month po_sales).2 today

theorem npSet_ok (m : List (List Int)) (r : Int) (c : Nat) (v : Int) (ncols : Nat)
    (h0 : 0 ≤ r) (hr : r < (m.length : Int))
    (hrows : ∀ row ∈ m, row.length = ncols) (hc : c < ncols) :
    ∃ m2, npSet m r c v = some m2 ∧ m2.length = m.length ∧
      ∀ row ∈ m2, row.length = ncols := by
  have hlt : r.toNat < m.length := by omega
  have hmem : m.getD r.toNat [] ∈ m := by
    rw [List.getD_eq_getElem _ _ hlt]
    exact List.getElem_mem hlt
  have hlenrow : (m.getD r.toNat []).length = ncols := hrows _ hmem
  unfold npSet
  rw [if_pos ⟨h0, hr⟩, if_pos (by rw [hlenrow]; exact hc)]
  refine ⟨_, rfl, by simp, ?_⟩
  intro row hrowmem
  rcases List.mem_or_eq_of_mem_set hrowmem with hmem' | rfl
  · exact hrows row hmem'
  · rw [List.length_set]
    exact hlenrow

theorem foldlM_npSet_ok (i0 : YearMonth) (c : Nat) (nrows ncols : Nat)
    (pod : List (YearMonth × Int)) :
    ∀ m : List (List Int), m.length = nrows → (∀ row ∈ m, row.length = ncols) →
      c < ncols →
      (∀ yq ∈ pod, 0 ≤ yq.1.months_diff i0 ∧ yq.1.months_diff i0 < (nrows : Int)) →
      ∃ m2, pod.foldlM (fun m2 yq => npSet m2 (yq.1.months_diff i0) c yq.2) m = some m2 ∧
        m2.length = nrows ∧ ∀ row ∈ m2, row.length = ncols := by
  induction pod with
  | nil =>
    intro m hlen hrows hc _
    exact ⟨m, rfl, hlen, hrows⟩
  | cons yq rest ih =>
    intro m hlen hrows hc hb
    obtain ⟨hb1, hb2⟩ := hb yq (List.mem_cons_self yq rest)
    obtain ⟨m2, hm2, hlen2, hrows2⟩ :=
      npSet_ok m (yq.1.months_diff i0) c yq.2 ncols hb1 (by rw [hlen]; exact hb2)
        hrows hc
    obtain ⟨m3, hm3, hlen3, hrows3⟩ := ih m2 (hlen ▸ hlen2) hrows2 hc
      (fun q hq => hb q (List.mem_cons_of_mem yq hq))
    refine ⟨m3, ?_, hlen3, hrows3⟩
    rw [List.foldlM, hm2]
    exact hm3

theorem prepare_group_ok (gd : List (String × List (YearMonth × Int)))
    (i0 today : YearMonth) (hnn : 0 ≤ today.months_diff i0)
    (hbound : ∀ pd ∈ gd, ∀ yq ∈ pd.2,
      0 ≤ yq.1.months_diff i0 ∧ yq.1.months_diff i0 ≤ today.months_diff i0) :
    ∃ M, prepare_group gd i0 today = some M ∧
      M.length = (today.months_diff i0 + 1).toNat ∧
      ∀ row ∈ M, row.length = gd.length := by
  unfold prepare_group
  rw [if_neg (by omega)]
  suffices h : ∀ (l : List (String × List (YearMonth × Int))),
      (∀ pd ∈ l, pd ∈ gd) →
      ∀ m : List (List Int), m.length = (today.months_diff i0 + 1).toNat →
      (∀ row ∈ m, row.length = gd.length) →
      ∃ M, l.foldlM (fun m pd =>
          pd.2.foldlM (fun m2 yq =>
            npSet m2 (yq.1.months_diff i0) ((gd.map Prod.fst).indexOf pd.1) yq.2) m) m
        = some M ∧
        M.length = (today.months_diff i0 + 1).toNat ∧
        ∀ row ∈ M, row.length = gd.length by
    exact h gd (fun pd hpd => hpd) _ (by simp) (by
      intro row hrow
      rw [List.eq_of_mem_replicate hrow]
      simp)
  intro l
  induction l with
  | nil =>
    intro _ m hlen hrows
    exact ⟨m, rfl, hlen, hrows⟩
  | cons pd rest ih =>
    intro hsub m hlen hrows
    have hpdgd : pd ∈ gd := hsub pd (List.mem_cons_self pd rest)
    have hcol : (gd.map Prod.fst).indexOf pd.1 < gd.length := by
      have : pd.1 ∈ gd.map Prod.fst := List.mem_map.mpr ⟨pd, hpdgd, rfl⟩
      have := List.indexOf_lt_length.mpr this
      simpa using this
    obtain ⟨m2, hm2, hlen2, hrows2⟩ :=
      foldlM_npSet_ok i0 ((gd.map Prod.fst).indexOf pd.1)
        (today.months_diff i0 + 1).toNat gd.length pd.2 m hlen hrows hcol
        (by
          intro yq hyq
          obtain ⟨hb1, hb2⟩ := hbound pd hpdgd yq hyq
          constructor
          · exact hb1
          · omega)
    obtain ⟨M, hM, hlenM, hrowsM⟩ := ih (fun q hq => hsub q (List.mem_cons_of_mem pd hq))
      m2 hlen2 hrows2
    refine ⟨M, ?_, hlenM, hrowsM⟩
    rw [List.foldlM, hm2]
    exact hM

/-- The entry `_prepare_data` produces for one group, given that its
lookups succeed. -/
def prepared_entry (initial : List (String × YearMonth)) (today : YearMonth)
    (gp : String × List (String × List (YearMonth × Int))) :
    String × List (List Int) :=
  (gp.1, (prepare_group gp.2 ((dlookup initial gp.1).getD ⟨0, 0⟩) today).getD [])

theorem prepare_data_fold_ok (initial : List (String × YearMonth)) (today : YearMonth) :
    ∀ (grouped : List (String × List (String × List (YearMonth × Int))))
      (data : List (String × List (List Int))),
      (∀ gp ∈ grouped, (dlookup initial gp.1).isSome ∧
        (prepare_group gp.2 ((dlookup initial gp.1).getD ⟨0, 0⟩) today).isSome) →
      grouped.foldlM (fun data gp =>
        match dlookup initial gp.1 with
        | none => none
        | some i0 => (prepare_group gp.2 i0 today).map (fun M => data ++ [(gp.1, M)])) data
        = some (data ++ grouped.map (prepared_entry initial today)) := by
  intro grouped
  induction grouped with
  | nil =>
    intro data _
    simp [List.foldlM]
  | cons gp rest ih =>
    intro data hok
    obtain ⟨hi, hp⟩ := hok gp (List.mem_cons_self gp rest)
    rw [List.foldlM]
    cases hdi : dlookup initial gp.1 with
    | none => rw [hdi] at hi; cases hi
    | some i0 =>
      rw [hdi] at hp
      simp only [Option.getD_some] at hp
      cases hpg : prepare_group gp.2 i0 today with
      | none => rw [hpg] at hp; cases hp
      | some M =>
        have hrest := ih (data ++ [(gp.1, M)])
          (fun q hq => hok q (List.mem_cons_of_mem gp hq))
        dsimp only
        rw [hpg]
        show List.foldlM _ (data ++ [(gp.1, M)]) rest = _
        rw [hrest]
        have hentry : prepared_entry initial today gp = (gp.1, M) := by
          unfold prepared_entry
          rw [hdi]
          simp only [Option.getD_some]
          rw [hpg]
          rfl
        rw [List.map_cons, hentry]
        simp

theorem dlookup_mem {κ ν : Type} [DecidableEq κ]
    {d : List (κ × ν)} {k : κ} {v : ν} (h : dlookup d k = some v) : (k, v) ∈ d := by
  induction d with
  | nil => cases h
  | cons p t ih =>
    obtain ⟨k0, v0⟩ := p
    by_cases hk : k0 = k
    · subst hk
      rw [dlookup, if_pos rfl] at h
      cases h
      exact List.mem_cons_self _ _
    · rw [dlookup, if_neg hk] at h
      exact List.mem_cons_of_mem _ (ih h)

/-- The `≤` analogue of `yearMonth_lt_iff` for calendar months. -/
theorem yearMonth_le_iff (a b : YearMonth)
    (ha : 1 ≤ a.month ∧ a.month ≤ 12) (hb : 1 ≤ b.month ∧ b.month ≤ 12) :
    a.year_month ≤ b.year_month ↔ a.year * 12 + a.month ≤ b.year * 12 + b.month := by
  unfold YearMonth.year_month
  omega

/-- The concrete example of the spec: option "A" sells 3 in 2023-01 and 5
in 2023-03, option "B" sells 1 in 2023-02, all in group "X". -/
def exampleSales : List (String × List Sale) :=
  [("A", [⟨"A", ⟨2023, 1⟩, 3, "X"⟩, ⟨"A", ⟨2023, 3⟩, 5, "X"⟩]),
   ("B", [⟨"B", ⟨2023, 2⟩, 1, "X"⟩])]

/-- **C6**: for every group with at least one sale (all sale months being
calendar months no later than `as_of`), the builder produces a matrix with
one row per calendar month from the group's earliest observed month
through `as_of` inclusive (`months_diff + 1` rows) and one column per
option of the group in first-encountered order, no two options sharing a
column (the key list is duplicate-free, so `list.index` assigns distinct
columns); and on the spec's concrete example the group "X" matrix is
`[[3,0],[0,1],[5,0]]`. -/
theorem C6_dense_series_builder :
    (∀ (po_sales : List (String × List Sale)) (today : YearMonth) (g : String),
      (1 ≤ today.month ∧ today.month ≤ 12) →
      (∀ p ∈ sale_pairs po_sales,
        (1 ≤ p.2.sale_date.month ∧ p.2.sale_date.month ≤ 12) ∧
        p.2.sale_date.year_month ≤ today.year_month) →
      (∃ p ∈ sale_pairs po_sales, p.2.group = g) →
      ∃ gd i0 data M,
        dlookup (group_and_index_sales_by_month po_sales).1 g = some gd ∧
        dlookup (group_and_index_sales_by_month po_sales).2 g = some i0 ∧
        earliest (monthsOf (sale_pairs po_sales) g) = some i0 ∧
        sale_series_matrices po_sales today = some data ∧
        dlookup data g = some M ∧
        M.length = (today.months_diff i0 + 1).toNat ∧
        (∀ row ∈ M, row.length = gd.length) ∧
        gd.map Prod.fst = firstDedup (optionsOf (sale_pairs po_sales) g) ∧
        (gd.map Prod.fst).Nodup) ∧
    sale_series_matrices exampleSales ⟨2023, 3⟩ = some [("X", [[3, 0], [0, 1], [5, 0]])] := by
  constructor
  · intro po_sales today g htoday hsales hg
    have hinv := gi_inv_foldl (sale_pairs po_sales)
    rw [← group_and_index_eq_foldl] at hinv
    obtain ⟨h1, h2, h3⟩ := hinv
    -- months recorded for any group are valid calendar months ≤ today
    have hvalidm : ∀ (gg : String) (ym : YearMonth), ym ∈ monthsOf (sale_pairs po_sales) gg →
        (1 ≤ ym.month ∧ ym.month ≤ 12) ∧ ym.year_month ≤ today.year_month := by
      intro gg ym hym
      rw [monthsOf, List.mem_filterMap] at hym
      obtain ⟨p, hp, hfp⟩ := hym
      by_cases hgp : p.2.group = gg
      · rw [if_pos hgp] at hfp
        cases hfp
        exact hsales p hp
      · rw [if_neg hgp] at hfp
        cases hfp
    -- months of a group with a recorded minimum have in-range row indices
    have hdiff : ∀ (gg : String) (i0 : YearMonth),
        earliest (monthsOf (sale_pairs po_sales) gg) = some i0 →
        (0 ≤ today.months_diff i0 ∧
         ∀ ym ∈ monthsOf (sale_pairs po_sales) gg,
           0 ≤ ym.months_diff i0 ∧ ym.months_diff i0 ≤ today.months_diff i0) := by
      intro gg i0 he
      obtain ⟨hi0mem, hi0min⟩ := earliest_mem_min _ i0 he
      have hvi0 := hvalidm gg i0 hi0mem
      have hnn : 0 ≤ today.months_diff i0 := by
        have := (yearMonth_le_iff i0 today hvi0.1 htoday).mp hvi0.2
        rw [YearMonth.months_diff_eq]
        omega
      refine ⟨hnn, ?_⟩
      intro ym hym
      have hvym := hvalidm gg ym hym
      have hlt := hi0min ym hym
      rw [yearMonth_lt_iff ym i0 hvym.1 hvi0.1] at hlt
      have hle := (yearMonth_le_iff ym today hvym.1 htoday).mp hvym.2
      rw [YearMonth.months_diff_eq, YearMonth.months_diff_eq]
      omega
    have hndgroups : ((group_and_index_sales_by_month po_sales).1.map Prod.fst).Nodup := by
      rw [h2]
      exact firstDedup_nodup _
    -- every group of the grouped dict has a successful matrix
    have hok : ∀ gp ∈ (group_and_index_sales_by_month po_sales).1,
        (dlookup (group_and_index_sales_by_month po_sales).2 gp.1).isSome ∧
        (prepare_group gp.2
          ((dlookup (group_and_index_sales_by_month po_sales).2 gp.1).getD ⟨0, 0⟩)
          today).isSome := by
      intro gp hgp
      have hkey : gp.1 ∈ groupsOf (sale_pairs po_sales) := by
        rw [← mem_firstDedup, ← h2]
        exact List.mem_map.mpr ⟨gp, hgp, rfl⟩
      obtain ⟨p0, hp0, hp0g⟩ := List.mem_map.mp hkey
      have hmonth0 : p0.2.sale_date ∈ monthsOf (sale_pairs po_sales) gp.1 := by
        rw [monthsOf, List.mem_filterMap]
        exact ⟨p0, hp0, by rw [if_pos hp0g]⟩
      have hne : monthsOf (sale_pairs po_sales) gp.1 ≠ [] := by
        intro hnil
        rw [hnil] at hmonth0
        cases hmonth0
      obtain ⟨i0, hi0⟩ : ∃ i0, earliest (monthsOf (sale_pairs po_sales) gp.1) = some i0 := by
        cases he : earliest (monthsOf (sale_pairs po_sales) gp.1) with
        | none => exact absurd ((earliest_eq_none_iff _).mp he) hne
        | some i0 => exact ⟨i0, rfl⟩
      have hili : dlookup (group_and_index_sales_by_month po_sales).2 gp.1 = some i0 := by
        rw [h1 gp.1, hi0]
      refine ⟨by rw [hili]; rfl, ?_⟩
      rw [hili]
      simp only [Option.getD_some]
      have hgd : dlookup (group_and_index_sales_by_month po_sales).1 gp.1 = some gp.2 := by
        apply dlookup_of_mem_of_nodup hndgroups
        simpa using hgp
      obtain ⟨hkeys, hmonths⟩ := h3 gp.1 gp.2 hgd
      have hndpo : (gp.2.map Prod.fst).Nodup := by
        rw [hkeys]
        exact firstDedup_nodup _
      obtain ⟨hnn, hbnd⟩ := hdiff gp.1 i0 hi0
      obtain ⟨M, hM, -, -⟩ := prepare_group_ok gp.2 i0 today hnn (by
        intro pd hpd yq hyq
        have hpod : dlookup gp.2 pd.1 = some pd.2 := by
          apply dlookup_of_mem_of_nodup hndpo
          simpa using hpd
        exact hbnd yq.1 (hmonths pd.1 pd.2 hpod yq hyq))
      rw [hM]
      rfl
    -- the builder succeeds on every group
    have hdata : sale_series_matrices po_sales today =
        some ((group_and_index_sales_by_month po_sales).1.map
          (prepared_entry (group_and_index_sales_by_month po_sales).2 today)) := by
      unfold sale_series_matrices prepare_data
      exact prepare_data_fold_ok _ today _ [] hok
    -- instantiate at the requested group
    obtain ⟨p0, hp0, hp0g⟩ := hg
    have hkey : g ∈ groupsOf (sale_pairs po_sales) :=
      List.mem_map.mpr ⟨p0, hp0, hp0g⟩
    have hmonth0 : p0.2.sale_date ∈ monthsOf (sale_pairs po_sales) g := by
      rw [monthsOf, List.mem_filterMap]
      exact ⟨p0, hp0, by rw [if_pos hp0g]⟩
    have hne : monthsOf (sale_pairs po_sales) g ≠ [] := by
      intro hnil
      rw [hnil] at hmonth0
      cases hmonth0
    obtain ⟨i0, hi0⟩ : ∃ i0, earliest (monthsOf (sale_pairs po_sales) g) = some i0 := by
      cases he : earliest (monthsOf (sale_pairs po_sales) g) with
      | none => exact absurd ((earliest_eq_none_iff _).mp he) hne
      | some i0 => exact ⟨i0, rfl⟩
    have hili : dlookup (group_and_index_sales_by_month po_sales).2 g = some i0 := by
      rw [h1 g, hi0]
    have hgsome : (dlookup (group_and_index_sales_by_month po_sales).1 g).isSome := by
      rw [dlookup_isSome_iff_mem_keys, h2, mem_firstDedup]
      exact hkey
    obtain ⟨gd, hgd⟩ := Option.isSome_iff_exists.mp hgsome
    obtain ⟨hkeys, hmonths⟩ := h3 g gd hgd
    have hndpo : (gd.map Prod.fst).Nodup := by
      rw [hkeys]
      exact firstDedup_nodup _
    obtain ⟨hnn, hbnd⟩ := hdiff g i0 hi0
    obtain ⟨M, hM, hMlen, hMrows⟩ := prepare_group_ok gd i0 today hnn (by
      intro pd hpd yq hyq
      have hpod : dlookup gd pd.1 = some pd.2 := by
        apply dlookup_of_mem_of_nodup hndpo
        simpa using hpd
      exact hbnd yq.1 (hmonths pd.1 pd.2 hpod yq hyq))
    refine ⟨gd, i0, _, M, hgd, hili, hi0, hdata, ?_, hMlen, hMrows, hkeys, hndpo⟩
    -- look the matrix up in the built data
    have hdatakeys : (((group_and_index_sales_by_month po_sales).1.map
        (prepared_entry (group_and_index_sales_by_month po_sales).2 today)).map Prod.fst).Nodup := by
      rw [List.map_map]
      exact hndgroups
    apply dlookup_of_mem_of_nodup hdatakeys
    have hmem : (g, gd) ∈ (group_and_index_sales_by_month po_sales).1 := dlookup_mem hgd
    have hentry : prepared_entry (group_and_index_sales_by_month po_sales).2 today (g, gd)
        = (g, M) := by
      unfold prepared_entry
      rw [hili]
      simp only [Option.getD_some]
      rw [hM]
      rfl
    rw [← hentry]
    exact List.mem_map.mpr ⟨(g, gd), hmem, rfl⟩
  · decide

/-- Witness for C6's general half, at the spec's concrete example. -/
theorem C6_dense_series_builder_witness :
    ∃ gd i0 data M,
      dlookup (group_and_index_sales_by_month exampleSales).1 "X" = some gd ∧
      dlookup (group_and_index_sales_by_month exampleSales).2 "X" = some i0 ∧
      earliest (monthsOf (sale_pairs exampleSales) "X") = some i0 ∧
      sale_series_matrices exampleSales ⟨2023, 3⟩ = some data ∧
      dlookup data "X" = some M ∧
      M.length = ((YearMonth.mk 2023 3).months_diff i0 + 1).toNat ∧
      (∀ row ∈ M, row.length = gd.length) ∧
      gd.map Prod.fst = firstDedup (optionsOf (sale_pairs exampleSales) "X") ∧
      (gd.map Prod.fst).Nodup :=
  C6_dense_series_builder.1 exampleSales ⟨2023, 3⟩ "X" (by decide) (by decide)
    ⟨("A", ⟨"A", ⟨2023, 1⟩, 3, "X"⟩), by decide, rfl⟩

end RestApi
